import Mathlib

/-!
# gits-log: the `logger` package (`src/logger/common.go`)

A shallow embedding of the package and of the library primitives it is built
from (`path/filepath`, `time`, `fmt`, `lumberjack`, `zap`), followed by the
properties of its file naming, level routing, rotation parameters, facade and
time encoding.

Go strings are modelled by `String`; the library routines below only ever
inspect the ASCII bytes `/` and `.`, and only ever append ASCII digits and
punctuation, so working on characters and working on bytes coincide.
-/

namespace GitsLog

/-! ## `time`: formatting a time value -/

/-- A Go `time.Time`, observed through `Date()`, `Clock()`, `Nanosecond()` and
`Zone()`: the civil fields `Format` prints.  The ranges are those the accessor
methods guarantee; the year is an arbitrary `int`. -/
structure Time where
  year : Int
  month : Nat
  day : Nat
  hour : Nat
  minute : Nat
  second : Nat
  nanosecond : Nat
  /-- Zone offset, in seconds east of UTC. -/
  offset : Int
  inRange : (1 ≤ month ∧ month ≤ 12) ∧ (1 ≤ day ∧ day ≤ 31) ∧ hour < 24 ∧ minute < 60 ∧
    second < 60 ∧ nanosecond < 1000000000

/-- The ASCII digit of `d < 10`. -/
def digitChar (d : Nat) : Char := Char.ofNat (48 + d)

/-- The decimal form of `u`, most significant digit first (the digit loop of
`appendInt`); `fuel` bounds the number of digits produced. -/
def decimal : Nat → Nat → List Char
  | 0, _ => []
  | fuel + 1, u =>
    if u < 10 then [digitChar u] else decimal fuel (u / 10) ++ [digitChar (u % 10)]

/-- Go `time.appendInt(b, x, width)`: append the decimal form of `x`, with a
leading `-` when negative, left-padded with zeros to `width` digits. -/
def appendInt (b : List Char) (x : Int) (width : Nat) : List Char :=
  let u := x.natAbs
  let b := if x < 0 then b ++ ['-'] else b
  let ds := decimal (u + 1) u
  b ++ List.replicate (width - ds.length) '0' ++ ds

/-- Go `time.appendNano(b, nanosec, std)` for a `stdFracSecond0` chunk of `n`
digits with separator `.`: the separator, then the nine-digit nanosecond count
cut to its first `n` digits. -/
def appendNano (b : List Char) (nanosec : Nat) (n : Nat) : List Char :=
  b ++ ['.'] ++ (appendInt [] nanosec 9).take n

/-- The layout chunks (`nextStdChunk`) that occur in the layouts used by the
package and by zap's ISO 8601 time encoder. -/
inductive Chunk where
  /-- Literal text, copied through. -/
  | lit (s : String)
  /-- Layout `2006`. -/
  | stdLongYear
  /-- Layout `01`. -/
  | stdZeroMonth
  /-- Layout `02`. -/
  | stdZeroDay
  /-- Layout `15`. -/
  | stdHour
  /-- Layout `04`. -/
  | stdZeroMinute
  /-- Layout `05`. -/
  | stdZeroSecond
  /-- Layout `.000` (with `n` zeros). -/
  | stdFracSecond0 (n : Nat)
  /-- Layout `Z0700`. -/
  | stdISO8601TZ
  deriving DecidableEq, Repr

/-- One step of `Time.appendFormat`: what a chunk appends for the time `t`. -/
def appendChunk (t : Time) (b : List Char) : Chunk → List Char
  | .lit s => b ++ s.data
  | .stdLongYear => appendInt b t.year 4
  | .stdZeroMonth => appendInt b t.month 2
  | .stdZeroDay => appendInt b t.day 2
  | .stdHour => appendInt b t.hour 2
  | .stdZeroMinute => appendInt b t.minute 2
  | .stdZeroSecond => appendInt b t.second 2
  | .stdFracSecond0 n => appendNano b t.nanosecond n
  | .stdISO8601TZ =>
    if t.offset = 0 then b ++ ['Z']
    else
      let zone := Int.tdiv t.offset 60
      let b := if zone < 0 then b ++ ['-'] else b ++ ['+']
      let zone := if zone < 0 then -zone else zone
      let b := appendInt b (Int.tdiv zone 60) 2
      appendInt b (Int.tmod zone 60) 2

/-- Go `Time.Format` on a layout given by its chunks. -/
def Time.Format (t : Time) (layout : List Chunk) : String :=
  String.mk (layout.foldl (appendChunk t) [])

/-- The layout `"2006-01-02"`. -/
def layoutDate : List Chunk :=
  [.stdLongYear, .lit "-", .stdZeroMonth, .lit "-", .stdZeroDay]

/-- The layout `"2006-01-02 15:04:05.000"`. -/
def layoutCustom : List Chunk :=
  [.stdLongYear, .lit "-", .stdZeroMonth, .lit "-", .stdZeroDay, .lit " ",
   .stdHour, .lit ":", .stdZeroMinute, .lit ":", .stdZeroSecond, .stdFracSecond0 3]

/-- The layout `"2006-01-02T15:04:05.000Z0700"` of `zapcore.ISO8601TimeEncoder`. -/
def layoutISO8601 : List Chunk :=
  [.stdLongYear, .lit "-", .stdZeroMonth, .lit "-", .stdZeroDay, .lit "T",
   .stdHour, .lit ":", .stdZeroMinute, .lit ":", .stdZeroSecond, .stdFracSecond0 3,
   .stdISO8601TZ]

/-! ## `path/filepath`: `Join` and `Clean` (Unix) -/

/-- Go `os.IsPathSeparator` on Unix. -/
def isPathSeparator (c : Char) : Bool := c == '/'

/-- The backtracking loop of `Clean` for a `..` element: starting from the
write index `w` (already decremented once), step back while `w > dotdot` and
`buf[w]` is not a separator. -/
def backtrack (buf : List Char) (dotdot : Nat) : Nat → Nat
  | 0 => 0
  | w + 1 =>
    if dotdot < w + 1 && !isPathSeparator (buf.getD (w + 1) '/') then backtrack buf dotdot w
    else w + 1

/-- The main loop of `Clean`.  `rest` is the unread part `path[r:]`, `out` the
written part `buf[:w]`, `dotdot` the index where `..` must stop.  Every
iteration reads at least one byte, so `fuel = len(path)` suffices
(`cleanLoop_fuel`). -/
def cleanLoop (rooted : Bool) : Nat → List Char → List Char → Nat → List Char
  | 0, _, out, _ => out
  | fuel + 1, rest, out, dotdot =>
    match rest with
    | [] => out
    | c :: rest1 =>
      if isPathSeparator c then
        -- empty path element
        cleanLoop rooted fuel rest1 out dotdot
      else if c = '.' ∧ (rest1 = [] ∨ isPathSeparator (rest1.headD '/')) then
        -- . element
        cleanLoop rooted fuel rest1 out dotdot
      else if c = '.' ∧ rest1.head? = some '.' ∧
          (rest1.tail = [] ∨ isPathSeparator (rest1.tail.headD '/')) then
        -- .. element: remove to last separator
        if dotdot < out.length then
          -- can backtrack
          cleanLoop rooted fuel rest1.tail (out.take (backtrack out dotdot (out.length - 1))) dotdot
        else if !rooted then
          -- cannot backtrack, but not rooted, so append .. element
          let out := if 0 < out.length then out ++ ['/'] else out
          let out := out ++ ['.', '.']
          cleanLoop rooted fuel rest1.tail out out.length
        else
          cleanLoop rooted fuel rest1.tail out dotdot
      else
        -- real path element: add slash if needed, then copy the element
        let out := if (rooted && out.length != 1) || (!rooted && out.length != 0)
          then out ++ ['/'] else out
        let elem := (c :: rest1).takeWhile (fun x => !isPathSeparator x)
        let rest2 := (c :: rest1).dropWhile (fun x => !isPathSeparator x)
        cleanLoop rooted fuel rest2 (out ++ elem) dotdot

/-- Go `filepath.Clean` on Unix (no volume name). -/
def Clean (path : String) : String :=
  if path = "" then "."
  else
    let p := path.data
    let rooted := isPathSeparator (p.headD '.')
    let out := if rooted then cleanLoop true p.length p.tail ['/'] 1
      else cleanLoop false p.length p [] 0
    -- Turn empty string into "."
    String.mk (if out.length = 0 then ['.'] else out)

/-- Go `filepath.Join` on Unix: skip leading empty elements, join the rest with
the separator and clean the result. -/
def Join : List String → String
  | [] => ""
  | e :: es => if e ≠ "" then Clean (String.intercalate "/" (e :: es)) else Join es

/-- The format `fmt.Sprintf("%s_%s_%s.log", a, b, c)`. -/
def sprintfLogName (a b c : String) : String :=
  a ++ "_" ++ b ++ "_" ++ c ++ ".log"


/-! ## `lumberjack`: the rotation policy -/

/-- The exported fields of a `lumberjack.Logger`. -/
structure LumberjackLogger where
  Filename : String
  /-- Megabytes. -/
  MaxSize : Int
  MaxBackups : Int
  /-- Days. -/
  MaxAge : Int
  LocalTime : Bool
  Compress : Bool
  deriving DecidableEq, Repr

/-! ## `zapcore`: levels, encoders, entries, cores -/

/-- A `zapcore.Level` (an `int8`; every integer is allowed here). -/
abbrev Level := Int

def DebugLevel : Level := -1
def InfoLevel : Level := 0
def WarnLevel : Level := 1
def ErrorLevel : Level := 2
def DPanicLevel : Level := 3
def PanicLevel : Level := 4
def FatalLevel : Level := 5

/-- Go `Level.Enabled`: `lvl >= l`. -/
def Level.Enabled (l lvl : Level) : Bool := decide (l ≤ lvl)

/-- A `zap.AtomicLevel`: a mutable cell holding a level. -/
structure AtomicLevel where
  l : Level
  deriving DecidableEq, Repr

/-- Go `zap.NewAtomicLevel`: "creates an AtomicLevel with InfoLevel and above
logging enabled". -/
def NewAtomicLevel : AtomicLevel := ⟨InfoLevel⟩

/-- Go `AtomicLevel.SetLevel`. -/
def AtomicLevel.SetLevel (_ : AtomicLevel) (l : Level) : AtomicLevel := ⟨l⟩

/-- Go `AtomicLevel.Enabled`. -/
def AtomicLevel.Enabled (lvl : AtomicLevel) (l : Level) : Bool := Level.Enabled lvl.l l

/-- A value appended to a `zapcore.PrimitiveArrayEncoder`. -/
inductive Primitive where
  | string (s : String)
  /-- The `float64` number of seconds since the Unix epoch of a time, left
  symbolic. -/
  | epochSeconds (t : Time)

/-- A `zapcore.PrimitiveArrayEncoder`, as the values appended so far. -/
abbrev PrimitiveArrayEncoder := List Primitive

/-- Go `Level.CapitalString`. -/
def Level.CapitalString (l : Level) : String :=
  if l = DebugLevel then "DEBUG"
  else if l = InfoLevel then "INFO"
  else if l = WarnLevel then "WARN"
  else if l = ErrorLevel then "ERROR"
  else if l = DPanicLevel then "DPANIC"
  else if l = PanicLevel then "PANIC"
  else if l = FatalLevel then "FATAL"
  else "LEVEL(" ++ String.mk (appendInt [] l 0) ++ ")"

/-- Go `Level.String`. -/
def Level.String (l : Level) : String :=
  if l = DebugLevel then "debug"
  else if l = InfoLevel then "info"
  else if l = WarnLevel then "warn"
  else if l = ErrorLevel then "error"
  else if l = DPanicLevel then "dpanic"
  else if l = PanicLevel then "panic"
  else if l = FatalLevel then "fatal"
  else "Level(" ++ String.mk (appendInt [] l 0) ++ ")"

/-- Go `zapcore.CapitalLevelEncoder`. -/
def CapitalLevelEncoder (l : Level) (enc : PrimitiveArrayEncoder) : PrimitiveArrayEncoder :=
  enc ++ [.string l.CapitalString]

/-- Go `zapcore.LowercaseLevelEncoder`. -/
def LowercaseLevelEncoder (l : Level) (enc : PrimitiveArrayEncoder) : PrimitiveArrayEncoder :=
  enc ++ [.string l.String]

/-- Go `zapcore.ISO8601TimeEncoder`. -/
def ISO8601TimeEncoder (t : Time) (enc : PrimitiveArrayEncoder) : PrimitiveArrayEncoder :=
  enc ++ [.string (t.Format layoutISO8601)]

/-- Go `zapcore.EpochTimeEncoder`. -/
def EpochTimeEncoder (t : Time) (enc : PrimitiveArrayEncoder) : PrimitiveArrayEncoder :=
  enc ++ [.epochSeconds t]

/-- The package's `customTimeEncoder`. -/
def customTimeEncoder (t : Time) (enc : PrimitiveArrayEncoder) : PrimitiveArrayEncoder :=
  enc ++ [.string (t.Format layoutCustom)]

/-- The level-encoder functions an `EncoderConfig` here can hold. -/
inductive LevelEncoder where
  | CapitalLevelEncoder
  | LowercaseLevelEncoder
  deriving DecidableEq, Repr

/-- The time-encoder functions an `EncoderConfig` here can hold. -/
inductive TimeEncoder where
  | ISO8601TimeEncoder
  | EpochTimeEncoder
  | customTimeEncoder
  deriving DecidableEq, Repr

/-- The duration-encoder functions an `EncoderConfig` here can hold. -/
inductive DurationEncoder where
  | StringDurationEncoder
  | SecondsDurationEncoder
  deriving DecidableEq, Repr

/-- The caller-encoder functions an `EncoderConfig` here can hold. -/
inductive CallerEncoder where
  | ShortCallerEncoder
  deriving DecidableEq, Repr

/-- Calling the level-encoder function held by a configuration. -/
def LevelEncoder.call : LevelEncoder → Level → PrimitiveArrayEncoder → PrimitiveArrayEncoder
  | .CapitalLevelEncoder => GitsLog.CapitalLevelEncoder
  | .LowercaseLevelEncoder => GitsLog.LowercaseLevelEncoder

/-- Calling the time-encoder function held by a configuration. -/
def TimeEncoder.call : TimeEncoder → Time → PrimitiveArrayEncoder → PrimitiveArrayEncoder
  | .ISO8601TimeEncoder => GitsLog.ISO8601TimeEncoder
  | .EpochTimeEncoder => GitsLog.EpochTimeEncoder
  | .customTimeEncoder => GitsLog.customTimeEncoder

/-- A `zapcore.EncoderConfig`; `none` is a nil function, `""` an unset string
(`zapcore.OmitKey`).  The `NewReflectedEncoder` hook is left out. -/
structure EncoderConfig where
  MessageKey : String := ""
  LevelKey : String := ""
  TimeKey : String := ""
  NameKey : String := ""
  CallerKey : String := ""
  FunctionKey : String := ""
  StacktraceKey : String := ""
  SkipLineEnding : Bool := false
  LineEnding : String := ""
  EncodeLevel : Option LevelEncoder := none
  EncodeTime : Option TimeEncoder := none
  EncodeDuration : Option DurationEncoder := none
  EncodeCaller : Option CallerEncoder := none
  ConsoleSeparator : String := ""
  deriving DecidableEq, Repr

/-- Go `zapcore.DefaultLineEnding`. -/
def DefaultLineEnding : String := "\n"

/-- Go `zap.NewDevelopmentEncoderConfig`. -/
def NewDevelopmentEncoderConfig : EncoderConfig :=
  { TimeKey := "T"
    LevelKey := "L"
    NameKey := "N"
    CallerKey := "C"
    FunctionKey := ""
    MessageKey := "M"
    StacktraceKey := "S"
    LineEnding := DefaultLineEnding
    EncodeLevel := some .CapitalLevelEncoder
    EncodeTime := some .ISO8601TimeEncoder
    EncodeDuration := some .StringDurationEncoder
    EncodeCaller := some .ShortCallerEncoder }

/-- Go `zap.NewProductionEncoderConfig`. -/
def NewProductionEncoderConfig : EncoderConfig :=
  { TimeKey := "ts"
    LevelKey := "level"
    NameKey := "logger"
    CallerKey := "caller"
    FunctionKey := ""
    MessageKey := "msg"
    StacktraceKey := "stacktrace"
    LineEnding := DefaultLineEnding
    EncodeLevel := some .LowercaseLevelEncoder
    EncodeTime := some .EpochTimeEncoder
    EncodeDuration := some .SecondsDurationEncoder
    EncodeCaller := some .ShortCallerEncoder }

/-- The two encodings zap builds an encoder for. -/
inductive Encoding where
  | console
  | json
  deriving DecidableEq, Repr

/-- A `zapcore.Encoder`: its encoding and the configuration it was built from. -/
structure Encoder where
  encoding : Encoding
  cfg : EncoderConfig
  deriving DecidableEq, Repr

/-- The defaulting of `zapcore.newJSONEncoder`, shared by both constructors. -/
def fillLineEnding (cfg : EncoderConfig) : EncoderConfig :=
  if cfg.SkipLineEnding then { cfg with LineEnding := "" }
  else if cfg.LineEnding = "" then { cfg with LineEnding := DefaultLineEnding }
  else cfg

/-- Go `zapcore.NewConsoleEncoder`. -/
def NewConsoleEncoder (cfg : EncoderConfig) : Encoder :=
  let cfg := if cfg.ConsoleSeparator = "" then { cfg with ConsoleSeparator := "\t" } else cfg
  ⟨.console, fillLineEnding cfg⟩

/-- Go `zapcore.NewJSONEncoder`. -/
def NewJSONEncoder (cfg : EncoderConfig) : Encoder :=
  ⟨.json, fillLineEnding cfg⟩

/-- What the encoder of a sink puts into a line for the timestamp of an entry:
the console and JSON encoders both call `EncodeTime` when `TimeKey` is set and
`EncodeTime` is not nil, and write nothing otherwise. -/
def Encoder.encodeTime (e : Encoder) (t : Time) : PrimitiveArrayEncoder :=
  match e.cfg.EncodeTime with
  | some f => if e.cfg.TimeKey ≠ "" then f.call t [] else []
  | none => []

/-- What the encoder of a sink puts into a line for the level of an entry. -/
def Encoder.encodeLevel (e : Encoder) (l : Level) : PrimitiveArrayEncoder :=
  match e.cfg.EncodeLevel with
  | some f => if e.cfg.LevelKey ≠ "" then f.call l [] else []
  | none => []

/-- The kinds of `zapcore.Field` used here (`other` stands for the rest). -/
inductive FieldType where
  | Int64Type
  | StringType
  | BoolType
  | other (code : Nat)
  deriving DecidableEq, Repr

/-- A `zapcore.Field` (without its `Interface` member). -/
structure Field where
  Key : String
  Typ : FieldType
  Integer : Int := 0
  Str : String := ""
  deriving DecidableEq, Repr

/-- Go `zap.Int`. -/
def zapInt (key : String) (val : Int) : Field :=
  { Key := key, Typ := .Int64Type, Integer := val }

/-- A `zapcore.Entry`; the logger built here never sets `Caller` or `Stack`. -/
structure Entry where
  Level : Level
  Time : Time
  LoggerName : String := ""
  Message : String
  CallerDefined : Bool := false
  Stack : String := ""

/-- Where a core writes. -/
inductive WriteSyncer where
  /-- The result of `zapcore.AddSync(os.Stdout)`. -/
  | stdout
  /-- The result of `zapcore.AddSync(l)` for a `*lumberjack.Logger`. -/
  | file (l : LumberjackLogger)
  deriving DecidableEq, Repr

/-- One `Write` of a core: the entry and fields handed to `EncodeEntry`, whose
output goes to the core's `WriteSyncer`. -/
structure Written where
  ent : Entry
  fields : List Field

/-- A `zapcore.ioCore`.  `written` is the history of what the core has written
to `out`, oldest first (write errors are not modelled). -/
structure Core where
  level : AtomicLevel
  enc : Encoder
  out : WriteSyncer
  written : List Written := []

/-- Go `zapcore.NewCore`. -/
def NewCore (enc : Encoder) (ws : WriteSyncer) (enab : AtomicLevel) : Core :=
  { level := enab, enc := enc, out := ws }

/-- Go `ioCore.Write`. -/
def Core.Write (c : Core) (ent : Entry) (fields : List Field) : Core :=
  { c with written := c.written ++ [⟨ent, fields⟩] }

/-- Go `zapcore.CheckWriteAction`. -/
inductive CheckWriteAction where
  | WriteThenNoop
  | WriteThenGoexit
  | WriteThenPanic
  | WriteThenFatal
  deriving DecidableEq, Repr

/-- A `zapcore.CheckedEntry`: the entry, the terminal action, and the cores
that agreed to write it, as positions in the logger's tee. -/
structure CheckedEntry where
  Entry : Entry
  should : CheckWriteAction := .WriteThenNoop
  cores : List Nat := []

/-- Go `ioCore.Check` for the core at position `i`: add the core when its
level enabler accepts the entry. -/
def Core.Check (c : Core) (i : Nat) (ent : Entry) (ce : Option CheckedEntry) :
    Option CheckedEntry :=
  if c.level.Enabled ent.Level then
    match ce with
    | none => some { Entry := ent, cores := [i] }
    | some ce => some { ce with cores := ce.cores ++ [i] }
  else ce

/-- Go `multiCore.Check`: every core of the tee checks in turn.  `i` is the
position of the first core of `cores`. -/
def multiCoreCheck (ent : Entry) : List Core → Nat → Option CheckedEntry → Option CheckedEntry
  | [], _, ce => ce
  | c :: cs, i, ce => multiCoreCheck ent cs (i + 1) (c.Check i ent ce)

/-- Go `multiCore.Enabled`: some core is enabled. -/
def multiCoreEnabled (cores : List Core) (lvl : Level) : Bool :=
  cores.any (fun c => c.level.Enabled lvl)

/-- Apply `f` to the element at position `i`. -/
def modifyAt {α : Type} (f : α → α) : List α → Nat → List α
  | [], _ => []
  | a :: as, 0 => f a :: as
  | a :: as, i + 1 => a :: modifyAt f as i

/-- How a call of a logging method ends. -/
inductive Outcome where
  /-- The call returns. -/
  | returned
  /-- A nil pointer dereference (a run-time panic). -/
  | nilPointerDereference
  /-- The logger panics with the message, after writing. -/
  | panicked (msg : String)
  /-- The logger ends the process, after writing. -/
  | exited (code : Int)
  /-- The logger ends the calling goroutine, after writing. -/
  | goexit
  deriving DecidableEq, Repr

/-- Go `CheckedEntry.Write`: every checked core writes, in order, then the
terminal action runs. -/
def CheckedEntry.Write (ce : CheckedEntry) (fields : List Field) (cores : List Core) :
    Outcome × List Core :=
  let cores := ce.cores.foldl (fun cs i => modifyAt (fun c => c.Write ce.Entry fields) cs i) cores
  match ce.should with
  | .WriteThenPanic => (.panicked ce.Entry.Message, cores)
  | .WriteThenFatal => (.exited 1, cores)
  | .WriteThenGoexit => (.goexit, cores)
  | .WriteThenNoop => (.returned, cores)

/-! ## `zap`: the logger -/

/-- A `zap.Logger`: the tee of cores (`zapcore.NewTee`) and the options
`zap.New` sets. -/
structure ZapLogger where
  core : List Core
  development : Bool := false
  name : String := ""
  /-- The level from which entries get a stack trace; `zap.New` sets it to
  `FatalLevel + 1`. -/
  addStack : Level := FatalLevel + 1

/-- Go `zapcore.NewTee`. -/
def NewTee (cores : List Core) : List Core := cores

/-- Go `zap.New` without options. -/
def zapNew (core : List Core) : ZapLogger := { core := core }

/-- The process: the clock, read by `time.Now()`, the formatted stack trace of
the calling goroutine, and the package variable `Logger` (`none` is the nil
pointer). -/
structure World where
  /-- The value the `n`-th call of `time.Now()` returns. -/
  clock : Nat → Time
  /-- How many times the clock has been read. -/
  reads : Nat := 0
  /-- What `stacktrace.Capture` and its formatter give at a logging call. -/
  stack : String := ""
  Logger : Option ZapLogger := none

/-- Go `time.Now()`. -/
def World.Now (w : World) : Time × World :=
  (w.clock w.reads, { w with reads := w.reads + 1 })

/-- Go `CheckedEntry.After`. -/
def After (ce : Option CheckedEntry) (ent : Entry) (should : CheckWriteAction) : CheckedEntry :=
  match ce with
  | none => { Entry := ent, should := should }
  | some ce => { ce with should := should }

/-- Go `Logger.check`.  No caller annotation is configured; an entry that will
be written gets the stack trace when `addStack` accepts its level. -/
def ZapLogger.check (log : ZapLogger) (lvl : Level) (msg : String) (w : World) :
    Option CheckedEntry × World :=
  if lvl < DPanicLevel ∧ ¬ multiCoreEnabled log.core lvl then (none, w)
  else
    let (now, w) := w.Now
    let ent : Entry := { LoggerName := log.name, Time := now, Level := lvl, Message := msg }
    let ce := multiCoreCheck ent log.core 0 none
    let willWrite := ce.isSome
    let ce :=
      if lvl = PanicLevel then some (After ce ent .WriteThenPanic)
      else if lvl = FatalLevel then some (After ce ent .WriteThenFatal)
      else if lvl = DPanicLevel then
        (if log.development then some (After ce ent .WriteThenPanic) else ce)
      else ce
    let ce :=
      if willWrite ∧ log.addStack.Enabled lvl then
        ce.map (fun ce => { ce with Entry := { ce.Entry with Stack := w.stack } })
      else ce
    (ce, w)

/-- Go `Logger.Log`: check, then write. -/
def ZapLogger.Log (log : ZapLogger) (lvl : Level) (msg : String) (fields : List Field)
    (w : World) : Outcome × ZapLogger × World :=
  match log.check lvl msg w with
  | (some ce, w) =>
    let (o, cores) := ce.Write fields log.core
    (o, { log with core := cores }, w)
  | (none, w) => (.returned, log, w)

/-- Go `Logger.Info`. -/
def ZapLogger.Info (log : ZapLogger) (msg : String) (fields : List Field) (w : World) :
    Outcome × ZapLogger × World :=
  log.Log InfoLevel msg fields w

/-- Go `Logger.Error`. -/
def ZapLogger.Error (log : ZapLogger) (msg : String) (fields : List Field) (w : World) :
    Outcome × ZapLogger × World :=
  log.Log ErrorLevel msg fields w

/-! ## The package `logger` -/

/-- The package's `Config`. -/
structure Config where
  LogDirectory : String
  BaseLogName : String
  deriving DecidableEq, Repr

/-- The package's `newLumberjackLogger`. -/
def newLumberjackLogger (filename : String) : LumberjackLogger :=
  { Filename := filename
    MaxSize := 100
    MaxBackups := 7
    MaxAge := 7
    LocalTime := true
    Compress := false }

/-- The package's `newZapCore`. -/
def newZapCore (logRotate : LumberjackLogger) (level : AtomicLevel) (jsonEncoder : Bool) : Core :=
  let encoder :=
    if jsonEncoder then NewJSONEncoder NewProductionEncoderConfig
    else NewConsoleEncoder NewDevelopmentEncoderConfig
  NewCore encoder (.file logRotate) level

/-- The closure `getCurrentLogFileName` of `Initialize`: it reads the clock
each time it is called. -/
def getCurrentLogFileName (baseLogFileName : String) (levelName : String) (w : World) :
    String × World :=
  let (now, w) := w.Now
  (sprintfLogName baseLogFileName (now.Format layoutDate) levelName, w)

/-- The encoder configuration `Initialize` builds for the console. -/
def consoleEncoderConfig : EncoderConfig :=
  { LevelKey := "level"
    TimeKey := "timestamp"
    CallerKey := "caller"
    MessageKey := "message"
    EncodeLevel := some .CapitalLevelEncoder
    EncodeTime := some .customTimeEncoder }

/-- The package's `Initialize`. -/
def Initialize (conf : Config) (w : World) : World :=
  let baseLogFileName := Join [conf.LogDirectory, conf.BaseLogName]
  let (infoName, w) := getCurrentLogFileName baseLogFileName "info" w
  let fileLogInfo := newLumberjackLogger infoName
  let (errorName, w) := getCurrentLogFileName baseLogFileName "error" w
  let fileLogError := newLumberjackLogger errorName
  let fileLevelInfo := NewAtomicLevel.SetLevel InfoLevel
  let fileLevelError := NewAtomicLevel.SetLevel ErrorLevel
  let consoleEncoder := NewConsoleEncoder consoleEncoderConfig
  let consoleCore := NewCore consoleEncoder .stdout NewAtomicLevel
  let fileCoreInfo := newZapCore fileLogInfo fileLevelInfo false
  let fileCoreError := newZapCore fileLogError fileLevelError false
  { w with Logger := some (zapNew (NewTee [fileCoreInfo, fileCoreError, consoleCore])) }

/-- Calling a method of the package variable `Logger`: a nil pointer fails at
the first dereference, otherwise the method runs and the logger it mutated is
the one the variable still points to. -/
def onLogger (f : ZapLogger → World → Outcome × ZapLogger × World) (w : World) :
    Outcome × World :=
  match w.Logger with
  | none => (.nilPointerDereference, w)
  | some log =>
    match f log w with
    | (o, log, w) => (o, { w with Logger := some log })

/-- The package's `Info`. -/
def Info (msg : String) (fields : List Field) (w : World) : Outcome × World :=
  onLogger (fun log => log.Info msg fields) w

/-- The package's `Error`. -/
def Error (msg : String) (fields : List Field) (w : World) : Outcome × World :=
  onLogger (fun log => log.Error msg fields) w

/-- Logging at an arbitrary level through the package variable:
`Logger.Log(lvl, msg, fields...)`. -/
def LogAt (lvl : Level) (msg : String) (fields : List Field) (w : World) : Outcome × World :=
  onLogger (fun log => log.Log lvl msg fields) w

/-! ## Reading the sinks -/

/-- The core at position `i` of the shared logger's tee. -/
def World.core? (w : World) (i : Nat) : Option Core :=
  match w.Logger with
  | none => none
  | some log => log.core.get? i

/-- What the sink at position `i` of the tee has been handed so far. -/
def World.sink (w : World) (i : Nat) : List Written :=
  match w.core? i with
  | none => []
  | some c => c.written

/-- Position of the info file sink in the tee built by `Initialize`. -/
def infoFile : Nat := 0
/-- Position of the error file sink in the tee built by `Initialize`. -/
def errorFile : Nat := 1
/-- Position of the console sink in the tee built by `Initialize`. -/
def console : Nat := 2

/-- The rotation policy of the file sink at position `i`, if it is one. -/
def World.rotation? (w : World) (i : Nat) : Option LumberjackLogger :=
  match w.core? i with
  | some c => (match c.out with | .file l => some l | .stdout => none)
  | none => none

/-- Level, message and fields of a written record. -/
def Written.summary (r : Written) : Level × String × List Field :=
  (r.ent.Level, r.ent.Message, r.fields)

/-! ## Auxiliary definitions for the statements -/

/-- The tee `Initialize` builds for the file names `fi` and `fe`, with the
write histories `a`, `b`, `c` of its three cores. -/
def teeOf (fi fe : String) (a b c : List Written) : List Core :=
  [ { (newZapCore (newLumberjackLogger fi) ⟨InfoLevel⟩ false) with written := a },
    { (newZapCore (newLumberjackLogger fe) ⟨ErrorLevel⟩ false) with written := b },
    { (NewCore (NewConsoleEncoder consoleEncoderConfig) .stdout NewAtomicLevel) with written := c } ]

/-- A process whose shared logger is the one `Initialize` builds, after some
logging. -/
def builtWorld (clock : Nat → Time) (stack : String) (reads : Nat) (fi fe : String)
    (a b c : List Written) : World :=
  { clock := clock, reads := reads, stack := stack,
    Logger := some (zapNew (teeOf fi fe a b c)) }

/-- The record a call at level `L`, stamped with the time `t`, hands to the
cores that accept it; above `FatalLevel` it carries the stack trace. -/
def recordAt (L : Level) (msg : String) (fields : List Field) (t : Time) (stack : String) :
    Written :=
  ⟨{ Level := L, Time := t, Message := msg,
     Stack := if FatalLevel + 1 ≤ L then stack else "" }, fields⟩

/-- How a call at level `L` ends on a logger that is not in development mode. -/
def outcomeOf (L : Level) (msg : String) : Outcome :=
  if L = PanicLevel then .panicked msg else if L = FatalLevel then .exited 1 else .returned

/-- The process at start: the clock has not been read and the package variable
`Logger` has its zero value, nil. -/
def World.start (clock : Nat → Time) : World := { clock := clock }

/-- A call of the facade. -/
inductive FacadeCall where
  | info (msg : String) (fields : List Field)
  | error (msg : String) (fields : List Field)
  deriving DecidableEq, Repr

/-- The level of the record a facade call logs. -/
def FacadeCall.level : FacadeCall → Level
  | .info _ _ => InfoLevel
  | .error _ _ => ErrorLevel

/-- Level, message and fields of the record a facade call logs. -/
def FacadeCall.summary : FacadeCall → Level × String × List Field
  | .info msg fields => (InfoLevel, msg, fields)
  | .error msg fields => (ErrorLevel, msg, fields)

/-- Making a facade call. -/
def FacadeCall.run : FacadeCall → World → Outcome × World
  | .info msg fields => Info msg fields
  | .error msg fields => Error msg fields

/-- Making a sequence of facade calls, one after the other. -/
def runCalls (calls : List FacadeCall) (w : World) : World :=
  calls.foldl (fun w c => (c.run w).2) w

/-- The encoder of the sink at position `i` of the tee. -/
def World.encoder? (w : World) (i : Nat) : Option Encoder :=
  match w.core? i with
  | some c => some c.enc
  | none => none

/-- The level threshold of the sink at position `i` of the tee. -/
def World.threshold? (w : World) (i : Nat) : Option Level :=
  match w.core? i with
  | some c => some c.level.l
  | none => none

/-- The time 2024-03-01 12:00:00 UTC. -/
def exampleTime : Time := ⟨2024, 3, 1, 12, 0, 0, 0, 0, by decide⟩

/-- A process, at start, whose clock stands at `exampleTime`. -/
def exampleWorld : World := World.start (fun _ => exampleTime)

/-- The configuration of the spec's file-naming example. -/
def exampleConfig : Config := ⟨"/tmp/logs", "app"⟩

/-- The `k` lowest decimal digits of `u`, most significant first: a number
zero-padded to the fixed width `k`. -/
def fixedDigits : Nat → Nat → List Char
  | 0, _ => []
  | k + 1, u => fixedDigits k (u / 10) ++ [digitChar (u % 10)]

/-- The timestamp format in the spec's words, `YYYY-MM-DD HH:MM:SS.mmm`: every
numeric component zero-padded to its fixed width, the sub-second part being
the three digits of the millisecond. -/
def specTimestamp (t : Time) : String :=
  String.mk (fixedDigits 4 t.year.toNat ++ ['-'] ++ fixedDigits 2 t.month ++ ['-'] ++
    fixedDigits 2 t.day ++ [' '] ++ fixedDigits 2 t.hour ++ [':'] ++ fixedDigits 2 t.minute ++
    [':'] ++ fixedDigits 2 t.second ++ ['.'] ++ fixedDigits 3 (t.nanosecond / 1000000))

/-- The date format in the spec's words, `YYYY-MM-DD`: the year, the month and
the day, zero-padded to four, two and two digits. -/
def specDate (t : Time) : String :=
  String.mk (fixedDigits 4 t.year.toNat ++ ['-'] ++ fixedDigits 2 t.month ++ ['-'] ++
    fixedDigits 2 t.day)

/-- The first instant of the year 10000, UTC. -/
def year10000 : Time := ⟨10000, 1, 1, 0, 0, 0, 0, 0, by decide⟩

/-- A process, at start, whose clock stands at the first instant of the year
10000. -/
def year10000World : World := { clock := fun _ => year10000 }

/-- The characters of a plain path element: not empty, without separator, and
neither `.` nor `..`. -/
def PlainChars (s : List Char) : Prop :=
  s ≠ [] ∧ '/' ∉ s ∧ s ≠ ['.'] ∧ s ≠ ['.', '.']

/-- A plain path element. -/
def PlainElem (s : String) : Prop := PlainChars s.data

/-- The elements, each preceded by a separator. -/
def tailPath : List (List Char) → List Char
  | [] => []
  | s :: ss => '/' :: s ++ tailPath ss

/-- The path made of the given elements, joined by single separators and
starting at the root when `rooted`. -/
def pathOf (rooted : Bool) (elems : List String) : String :=
  (if rooted then "/" else "") ++ String.intercalate "/" elems

/-- Two times fall on the same calendar date. -/
def Time.sameDate (a b : Time) : Prop :=
  a.year = b.year ∧ a.month = b.month ∧ a.day = b.day

/-- The last nanosecond of 2024-03-01, UTC. -/
def beforeMidnight : Time := ⟨2024, 3, 1, 23, 59, 59, 999999999, 0, by decide⟩

/-- The first instant of 2024-03-02, UTC. -/
def afterMidnight : Time := ⟨2024, 3, 2, 0, 0, 0, 0, 0, by decide⟩

/-- A process, at start, whose clock passes midnight between its first and
its second reading. -/
def midnightWorld : World :=
  World.start (fun n => if n = 0 then beforeMidnight else afterMidnight)

/-! ## Shape of the process after `Initialize` -/

theorem Initialize_builtWorld (conf : Config) (w : World) :
    Initialize conf w =
      builtWorld w.clock w.stack (w.reads + 2)
        (sprintfLogName (Join [conf.LogDirectory, conf.BaseLogName])
          ((w.clock w.reads).Format layoutDate) "info")
        (sprintfLogName (Join [conf.LogDirectory, conf.BaseLogName])
          ((w.clock (w.reads + 1)).Format layoutDate) "error") [] [] [] := by
  rfl

theorem Log_teeOf (fi fe : String) (a b c : List Written) (L : Level) (msg : String)
    (fields : List Field) (w : World) :
    ZapLogger.Log (zapNew (teeOf fi fe a b c)) L msg fields w =
      if InfoLevel ≤ L then
        (outcomeOf L msg,
          zapNew (teeOf fi fe (a ++ [recordAt L msg fields (w.clock w.reads) w.stack])
              (b ++ if ErrorLevel ≤ L then [recordAt L msg fields (w.clock w.reads) w.stack] else [])
              (c ++ [recordAt L msg fields (w.clock w.reads) w.stack])),
          { w with reads := w.reads + 1 })
      else (.returned, zapNew (teeOf fi fe a b c), w) := by
  by_cases h3 : L = DPanicLevel
  · subst h3; rfl
  by_cases h4 : L = PanicLevel
  · subst h4; rfl
  by_cases h5 : L = FatalLevel
  · subst h5; rfl
  simp only [InfoLevel, ErrorLevel, DPanicLevel, PanicLevel, FatalLevel] at *
  unfold Level at *
  by_cases h0 : (0 : Int) ≤ L
  · by_cases h2 : (2 : Int) ≤ L
    · by_cases h6 : (6 : Int) ≤ L
      · have h6' : (5 : Int) + 1 ≤ L := by omega
        simp [ZapLogger.Log, ZapLogger.check, multiCoreEnabled, teeOf, newZapCore, NewCore,
          zapNew, AtomicLevel.Enabled, Level.Enabled, NewAtomicLevel, InfoLevel, ErrorLevel,
          DPanicLevel, PanicLevel, FatalLevel, World.Now, multiCoreCheck, Core.Check,
          CheckedEntry.Write, modifyAt, Core.Write, recordAt, outcomeOf, h0, h2, h3, h4, h5, h6,
          h6']
      · have h6' : ¬ ((5 : Int) + 1 ≤ L) := by omega
        simp [ZapLogger.Log, ZapLogger.check, multiCoreEnabled, teeOf, newZapCore, NewCore,
          zapNew, AtomicLevel.Enabled, Level.Enabled, NewAtomicLevel, InfoLevel, ErrorLevel,
          DPanicLevel, PanicLevel, FatalLevel, World.Now, multiCoreCheck, Core.Check,
          CheckedEntry.Write, modifyAt, Core.Write, recordAt, outcomeOf, h0, h2, h3, h4, h5, h6,
          h6']
    · have h3' : L < 3 := by omega
      have h6 : ¬ ((6 : Int) ≤ L) := by omega
      have h6' : ¬ ((5 : Int) + 1 ≤ L) := by omega
      simp [ZapLogger.Log, ZapLogger.check, multiCoreEnabled, teeOf, newZapCore, NewCore, zapNew,
        AtomicLevel.Enabled, Level.Enabled, NewAtomicLevel, InfoLevel, ErrorLevel,
        DPanicLevel, PanicLevel, FatalLevel, World.Now, multiCoreCheck, Core.Check,
        CheckedEntry.Write, modifyAt, Core.Write, recordAt, outcomeOf, h0, h2, h3, h4, h5, h3',
        h6, h6']
  · have h3' : L < 3 := by omega
    have h7 : ¬ ((2 : Int) ≤ L) := by omega
    simp [ZapLogger.Log, ZapLogger.check, multiCoreEnabled, teeOf, newZapCore, NewCore, zapNew,
      AtomicLevel.Enabled, Level.Enabled, NewAtomicLevel, InfoLevel, ErrorLevel,
      DPanicLevel, PanicLevel, FatalLevel, h0, h3', h7]

theorem LogAt_builtWorld (clock : Nat → Time) (stack : String) (reads : Nat) (fi fe : String)
    (a b c : List Written) (L : Level) (msg : String) (fields : List Field) :
    LogAt L msg fields (builtWorld clock stack reads fi fe a b c) =
      if InfoLevel ≤ L then
        (outcomeOf L msg,
          builtWorld clock stack (reads + 1) fi fe (a ++ [recordAt L msg fields (clock reads) stack])
            (b ++ if ErrorLevel ≤ L then [recordAt L msg fields (clock reads) stack] else [])
            (c ++ [recordAt L msg fields (clock reads) stack]))
      else (.returned, builtWorld clock stack reads fi fe a b c) := by
  simp only [LogAt, onLogger, builtWorld, Log_teeOf]
  split <;> rfl

theorem Info_builtWorld (clock : Nat → Time) (stack : String) (reads : Nat) (fi fe : String)
    (a b c : List Written) (msg : String) (fields : List Field) :
    Info msg fields (builtWorld clock stack reads fi fe a b c) =
      (.returned, builtWorld clock stack (reads + 1) fi fe
        (a ++ [recordAt InfoLevel msg fields (clock reads) stack]) b
        (c ++ [recordAt InfoLevel msg fields (clock reads) stack])) := by
  have h := LogAt_builtWorld clock stack reads fi fe a b c InfoLevel msg fields
  simpa [LogAt, Info, ZapLogger.Info, InfoLevel, ErrorLevel, outcomeOf, PanicLevel, FatalLevel]
    using h

theorem Error_builtWorld (clock : Nat → Time) (stack : String) (reads : Nat) (fi fe : String)
    (a b c : List Written) (msg : String) (fields : List Field) :
    Error msg fields (builtWorld clock stack reads fi fe a b c) =
      (.returned, builtWorld clock stack (reads + 1) fi fe
        (a ++ [recordAt ErrorLevel msg fields (clock reads) stack])
        (b ++ [recordAt ErrorLevel msg fields (clock reads) stack])
        (c ++ [recordAt ErrorLevel msg fields (clock reads) stack])) := by
  have h := LogAt_builtWorld clock stack reads fi fe a b c ErrorLevel msg fields
  simpa [LogAt, Error, ZapLogger.Error, InfoLevel, ErrorLevel, outcomeOf, PanicLevel, FatalLevel]
    using h

theorem sink_builtWorld (clock : Nat → Time) (stack : String) (reads : Nat) (fi fe : String)
    (a b c : List Written) :
    (builtWorld clock stack reads fi fe a b c).sink infoFile = a ∧
    (builtWorld clock stack reads fi fe a b c).sink errorFile = b ∧
    (builtWorld clock stack reads fi fe a b c).sink console = c :=
  ⟨rfl, rfl, rfl⟩

/-- After `Initialize` and any sequence of facade calls the process still has
the shape `Initialize` gave it, and each sink has received, in call order, the
records of the calls whose level meets its threshold. -/
theorem runCalls_builtWorld (calls : List FacadeCall) (clock : Nat → Time) (stack : String) (reads : Nat)
    (fi fe : String) (a b c : List Written) :
    ∃ a1 b1 c1 : List Written,
      runCalls calls (builtWorld clock stack reads fi fe a b c) =
        builtWorld clock stack (reads + calls.length) fi fe (a ++ a1) (b ++ b1) (c ++ c1) ∧
      a1.map Written.summary = calls.map FacadeCall.summary ∧
      b1.map Written.summary =
        (calls.filter (fun k => decide (ErrorLevel ≤ k.level))).map FacadeCall.summary ∧
      c1.map Written.summary = calls.map FacadeCall.summary := by
  induction calls generalizing reads a b c with
  | nil => exact ⟨[], [], [], by simp [runCalls], rfl, rfl, rfl⟩
  | cons k ks ih =>
    cases k with
    | info msg fields =>
      obtain ⟨a1, b1, c1, hrun, ha, hb, hc⟩ := ih (reads + 1)
        (a ++ [recordAt InfoLevel msg fields (clock reads) stack]) b
        (c ++ [recordAt InfoLevel msg fields (clock reads) stack])
      refine ⟨recordAt InfoLevel msg fields (clock reads) stack :: a1, b1,
        recordAt InfoLevel msg fields (clock reads) stack :: c1, ?_, ?_, ?_, ?_⟩
      · simp only [runCalls, List.foldl_cons, FacadeCall.run, Info_builtWorld] at hrun ⊢
        rw [hrun]
        simp [Nat.add_assoc, Nat.add_comm 1]
      · simp [ha, Written.summary, recordAt, FacadeCall.summary]
      · simp [hb, FacadeCall.level, InfoLevel, ErrorLevel]
      · simp [hc, Written.summary, recordAt, FacadeCall.summary]
    | error msg fields =>
      obtain ⟨a1, b1, c1, hrun, ha, hb, hc⟩ := ih (reads + 1)
        (a ++ [recordAt ErrorLevel msg fields (clock reads) stack])
        (b ++ [recordAt ErrorLevel msg fields (clock reads) stack])
        (c ++ [recordAt ErrorLevel msg fields (clock reads) stack])
      refine ⟨recordAt ErrorLevel msg fields (clock reads) stack :: a1,
        recordAt ErrorLevel msg fields (clock reads) stack :: b1,
        recordAt ErrorLevel msg fields (clock reads) stack :: c1, ?_, ?_, ?_, ?_⟩
      · simp only [runCalls, List.foldl_cons, FacadeCall.run, Error_builtWorld] at hrun ⊢
        rw [hrun]
        simp [Nat.add_assoc, Nat.add_comm 1]
      · simp [ha, Written.summary, recordAt, FacadeCall.summary]
      · simp [hb, FacadeCall.level, ErrorLevel, Written.summary, recordAt, FacadeCall.summary]
      · simp [hc, Written.summary, recordAt, FacadeCall.summary]

/-! ## Level routing -/

/-- After `Initialize` and any facade calls, the process is a `builtWorld`
whose clock is the original one. -/
theorem runCalls_Initialize_shape (conf : Config) (w : World) (calls : List FacadeCall) :
    ∃ fi fe a b c, runCalls calls (Initialize conf w) =
      builtWorld w.clock w.stack (w.reads + 2 + calls.length) fi fe a b c := by
  obtain ⟨a1, b1, c1, h, _, _, _⟩ := runCalls_builtWorld calls w.clock w.stack (w.reads + 2)
    (sprintfLogName (Join [conf.LogDirectory, conf.BaseLogName])
      ((w.clock w.reads).Format layoutDate) "info")
    (sprintfLogName (Join [conf.LogDirectory, conf.BaseLogName])
      ((w.clock (w.reads + 1)).Format layoutDate) "error") [] [] []
  exact ⟨_, _, _, _, _, by rw [Initialize_builtWorld, h]⟩

/-- C2: a record logged at level `L` through the logger built by `Initialize`
(after any earlier facade calls) is appended to the info file sink exactly
when `L >= Info` and to the error file sink exactly when `L >= Error`; the two
sinks carry the thresholds `InfoLevel` and `ErrorLevel`.  Hence an Error
record reaches both files and an Info record only the info file. -/
theorem file_sink_routing (conf : Config) (w : World) (calls : List FacadeCall) (L : Level)
    (msg : String) (fields : List Field) :
    (runCalls calls (Initialize conf w)).threshold? infoFile = some InfoLevel ∧
    (runCalls calls (Initialize conf w)).threshold? errorFile = some ErrorLevel ∧
    ∃ r : Written, r.ent.Level = L ∧ r.ent.Message = msg ∧ r.fields = fields ∧
      (LogAt L msg fields (runCalls calls (Initialize conf w))).2.sink infoFile =
        (runCalls calls (Initialize conf w)).sink infoFile ++
          (if InfoLevel ≤ L then [r] else []) ∧
      (LogAt L msg fields (runCalls calls (Initialize conf w))).2.sink errorFile =
        (runCalls calls (Initialize conf w)).sink errorFile ++
          (if ErrorLevel ≤ L then [r] else []) := by
  obtain ⟨fi, fe, a, b, c, h⟩ := runCalls_Initialize_shape conf w calls
  rw [h, LogAt_builtWorld]
  refine ⟨rfl, rfl, recordAt L msg fields (w.clock (w.reads + 2 + calls.length)) w.stack,
    rfl, rfl, rfl, ?_, ?_⟩
  · by_cases h0 : InfoLevel ≤ L
    · simp [h0, sink_builtWorld]
    · simp [h0, sink_builtWorld]
  · by_cases h0 : InfoLevel ≤ L
    · simp [h0, sink_builtWorld]
    · have h2 : ¬ ErrorLevel ≤ L := by
        simp only [InfoLevel, ErrorLevel] at *
        unfold Level at *
        omega
      simp [h0, h2, sink_builtWorld]

/-- C3, as the code has it: the console sink is built with
`zap.NewAtomicLevel()`, whose level is `InfoLevel`; a record logged at level
`L` (after any earlier facade calls) is appended to the console sink exactly
when `L >= Info`. -/
theorem console_sink_routing (conf : Config) (w : World) (calls : List FacadeCall) (L : Level)
    (msg : String) (fields : List Field) :
    (runCalls calls (Initialize conf w)).threshold? console = some InfoLevel ∧
    ∃ r : Written, r.ent.Level = L ∧ r.ent.Message = msg ∧ r.fields = fields ∧
      (LogAt L msg fields (runCalls calls (Initialize conf w))).2.sink console =
        (runCalls calls (Initialize conf w)).sink console ++
          (if InfoLevel ≤ L then [r] else []) := by
  obtain ⟨fi, fe, a, b, c, h⟩ := runCalls_Initialize_shape conf w calls
  rw [h, LogAt_builtWorld]
  refine ⟨rfl, recordAt L msg fields (w.clock (w.reads + 2 + calls.length)) w.stack, rfl, rfl, rfl, ?_⟩
  by_cases h0 : InfoLevel ≤ L
  · simp [h0, sink_builtWorld]
  · simp [h0, sink_builtWorld]

/-- C3, counterexample: a Debug record logged right after `Initialize` is not
written to the console sink, whose level filter rejects `DebugLevel`. -/
theorem console_rejects_debug :
    (LogAt DebugLevel "x" [] (Initialize exampleConfig exampleWorld)).2.sink console = [] ∧
    NewAtomicLevel.Enabled DebugLevel = false := by
  exact ⟨rfl, rfl⟩

/-! ## Rotation parameters -/

/-- C5: `newLumberjackLogger f` has file name `f`, maximum size 100 MB, at
most 7 backups, maximum age 7 days, local time on and compression off, and
both file sinks built by `Initialize` carry a policy made by it, with these
same parameters whatever the configuration. -/
theorem rotation_policy_fixed (f : String) (conf : Config) (w : World) :
    newLumberjackLogger f =
      { Filename := f, MaxSize := 100, MaxBackups := 7, MaxAge := 7, LocalTime := true,
        Compress := false } ∧
    ∃ li le : LumberjackLogger,
      (Initialize conf w).rotation? infoFile = some li ∧
      (Initialize conf w).rotation? errorFile = some le ∧
      li = newLumberjackLogger li.Filename ∧ le = newLumberjackLogger le.Filename ∧
      (li.MaxSize = 100 ∧ li.MaxBackups = 7 ∧ li.MaxAge = 7 ∧ li.LocalTime = true ∧
        li.Compress = false) ∧
      (le.MaxSize = 100 ∧ le.MaxBackups = 7 ∧ le.MaxAge = 7 ∧ le.LocalTime = true ∧
        le.Compress = false) :=
  ⟨rfl, _, _, rfl, rfl, rfl, rfl, ⟨rfl, rfl, rfl, rfl, rfl⟩, ⟨rfl, rfl, rfl, rfl, rfl⟩⟩

/-! ## The facade -/

/-- C6: before any `Initialize` call the package variable `Logger` is nil and
`Info` and `Error` fail with a nil pointer dereference; after `Initialize`
(and any facade calls) the variable is set and `Info` and `Error` return. -/
theorem facade_needs_Initialize (clock : Nat → Time) (conf : Config) (w : World)
    (calls : List FacadeCall) (msg : String) (fields : List Field) :
    (World.start clock).Logger = none ∧
    (Info msg fields (World.start clock)).1 = .nilPointerDereference ∧
    (Error msg fields (World.start clock)).1 = .nilPointerDereference ∧
    (Initialize conf w).Logger ≠ none ∧
    (runCalls calls (Initialize conf w)).Logger ≠ none ∧
    (Info msg fields (runCalls calls (Initialize conf w))).1 = .returned ∧
    (Error msg fields (runCalls calls (Initialize conf w))).1 = .returned := by
  obtain ⟨fi, fe, a, b, c, h⟩ := runCalls_Initialize_shape conf w calls
  refine ⟨rfl, rfl, rfl, ?_, ?_, ?_, ?_⟩
  · rw [Initialize_builtWorld]; simp [builtWorld]
  · rw [h]; simp [builtWorld]
  · rw [h, Info_builtWorld]
  · rw [h, Error_builtWorld]

/-- C7: `Info(msg, fields...)` hands the shared logger one Info-level record
and `Error(msg, fields...)` one Error-level record, carrying that message and
those fields in order; `Info` appends it to the info file sink and the console
sink, `Error` to all three sinks, unchanged.  For `Error("failed",
zap.Int("code", 42))` every sink gets the message "failed" and the field
code = 42. -/
theorem facade_passes_through (conf : Config) (w : World) (calls : List FacadeCall)
    (msg : String) (fields : List Field) :
    (∃ r : Written, r.ent.Level = InfoLevel ∧ r.ent.Message = msg ∧ r.fields = fields ∧
      (Info msg fields (runCalls calls (Initialize conf w))).2.sink infoFile =
        (runCalls calls (Initialize conf w)).sink infoFile ++ [r] ∧
      (Info msg fields (runCalls calls (Initialize conf w))).2.sink errorFile =
        (runCalls calls (Initialize conf w)).sink errorFile ∧
      (Info msg fields (runCalls calls (Initialize conf w))).2.sink console =
        (runCalls calls (Initialize conf w)).sink console ++ [r]) ∧
    (∃ r : Written, r.ent.Level = ErrorLevel ∧ r.ent.Message = msg ∧ r.fields = fields ∧
      (Error msg fields (runCalls calls (Initialize conf w))).2.sink infoFile =
        (runCalls calls (Initialize conf w)).sink infoFile ++ [r] ∧
      (Error msg fields (runCalls calls (Initialize conf w))).2.sink errorFile =
        (runCalls calls (Initialize conf w)).sink errorFile ++ [r] ∧
      (Error msg fields (runCalls calls (Initialize conf w))).2.sink console =
        (runCalls calls (Initialize conf w)).sink console ++ [r]) ∧
    (((Error "failed" [zapInt "code" 42] (Initialize exampleConfig exampleWorld)).2.sink
        infoFile).map Written.summary = [(ErrorLevel, "failed", [zapInt "code" 42])] ∧
      ((Error "failed" [zapInt "code" 42] (Initialize exampleConfig exampleWorld)).2.sink
        errorFile).map Written.summary = [(ErrorLevel, "failed", [zapInt "code" 42])] ∧
      ((Error "failed" [zapInt "code" 42] (Initialize exampleConfig exampleWorld)).2.sink
        console).map Written.summary = [(ErrorLevel, "failed", [zapInt "code" 42])]) := by
  obtain ⟨fi, fe, a, b, c, h⟩ := runCalls_Initialize_shape conf w calls
  rw [h, Info_builtWorld, Error_builtWorld]
  exact ⟨⟨_, rfl, rfl, rfl, rfl, rfl, rfl⟩, ⟨_, rfl, rfl, rfl, rfl, rfl, rfl⟩, rfl, rfl, rfl⟩

/-- C8: after `Initialize`, for every sequence of `Info` and `Error` calls,
each sink holds exactly one record per call whose level meets its threshold,
in call order and without deduplication: the info file sink and the console
sink one per call, the error file sink one per `Error` call.  Calling
`Info("x")` twice gives two records with the same level, message and fields in
the info file sink and in the console sink. -/
theorem sinks_hold_calls_in_order (conf : Config) (w : World) (calls : List FacadeCall) :
    ((runCalls calls (Initialize conf w)).sink infoFile).map Written.summary =
      (calls.filter (fun k => decide (InfoLevel ≤ k.level))).map FacadeCall.summary ∧
    ((runCalls calls (Initialize conf w)).sink errorFile).map Written.summary =
      (calls.filter (fun k => decide (ErrorLevel ≤ k.level))).map FacadeCall.summary ∧
    ((runCalls calls (Initialize conf w)).sink console).map Written.summary =
      (calls.filter (fun k => decide (InfoLevel ≤ k.level))).map FacadeCall.summary ∧
    ((runCalls [.info "x" [], .info "x" []] (Initialize conf w)).sink infoFile).map
      Written.summary = [(InfoLevel, "x", []), (InfoLevel, "x", [])] ∧
    ((runCalls [.info "x" [], .info "x" []] (Initialize conf w)).sink console).map
      Written.summary = [(InfoLevel, "x", []), (InfoLevel, "x", [])] := by
  have hall : ∀ cs : List FacadeCall,
      cs.filter (fun k => decide (InfoLevel ≤ k.level)) = cs := by
    intro cs
    apply List.filter_eq_self.mpr
    intro k _
    cases k <;> simp [FacadeCall.level, InfoLevel, ErrorLevel]
  obtain ⟨a1, b1, c1, h, ha, hb, hc⟩ := runCalls_builtWorld calls w.clock w.stack (w.reads + 2)
    (sprintfLogName (Join [conf.LogDirectory, conf.BaseLogName])
      ((w.clock w.reads).Format layoutDate) "info")
    (sprintfLogName (Join [conf.LogDirectory, conf.BaseLogName])
      ((w.clock (w.reads + 1)).Format layoutDate) "error") [] [] []
  rw [hall, Initialize_builtWorld, h]
  refine ⟨by simpa [sink_builtWorld] using ha, by simpa [sink_builtWorld] using hb,
    by simpa [sink_builtWorld] using hc, rfl, rfl⟩

/-! ## Time formatting -/

theorem length_fixedDigits (k u : Nat) : (fixedDigits k u).length = k := by
  induction k generalizing u with
  | zero => rfl
  | succ k ih => simp [fixedDigits, ih]

theorem fixedDigits_zero (k : Nat) : fixedDigits k 0 = List.replicate k '0' := by
  induction k with
  | zero => rfl
  | succ k ih =>
    have h0 : digitChar 0 = '0' := by decide
    simp [fixedDigits, ih, h0, List.replicate_succ']

theorem length_decimal_le (k : Nat) : ∀ fuel u : Nat, u < 10 ^ (k + 1) →
    (decimal fuel u).length ≤ k + 1 := by
  induction k with
  | zero =>
    intro fuel u h
    cases fuel with
    | zero => simp [decimal]
    | succ f =>
      have : u < 10 := by simpa using h
      simp [decimal, this]
  | succ k ih =>
    intro fuel u h
    cases fuel with
    | zero => simp [decimal]
    | succ f =>
      unfold decimal
      split
      · simp
      · have : u / 10 < 10 ^ (k + 1) := by
          rw [Nat.div_lt_iff_lt_mul (by decide)]
          calc u < 10 ^ (k + 1 + 1) := h
            _ = 10 ^ (k + 1) * 10 := by ring
        have := ih f (u / 10) this
        simp
        omega

/-- The zero-padded decimal form `appendInt` builds is the fixed-width one when
the number fits the width. -/
theorem pad_decimal (k : Nat) : ∀ fuel u : Nat, u < 10 ^ (k + 1) → u < fuel →
    List.replicate (k + 1 - (decimal fuel u).length) '0' ++ decimal fuel u =
      fixedDigits (k + 1) u := by
  induction k with
  | zero =>
    intro fuel u h hf
    cases fuel with
    | zero => omega
    | succ f =>
      have h10 : u < 10 := by simpa using h
      have hm : u % 10 = u := Nat.mod_eq_of_lt h10
      simp [decimal, h10, fixedDigits, hm]
  | succ k ih =>
    intro fuel u h hf
    cases fuel with
    | zero => omega
    | succ f =>
      by_cases h10 : u < 10
      · have hm : u % 10 = u := Nat.mod_eq_of_lt h10
        have hd : u / 10 = 0 := Nat.div_eq_of_lt h10
        rw [fixedDigits, hd, fixedDigits_zero, hm]
        simp [decimal, h10]
      · have hlt : u / 10 < 10 ^ (k + 1) := by
          rw [Nat.div_lt_iff_lt_mul (by decide)]
          calc u < 10 ^ (k + 1 + 1) := h
            _ = 10 ^ (k + 1) * 10 := by ring
        have hfu : u / 10 < f := by omega
        have hrec := ih f (u / 10) hlt hfu
        have hlen := length_decimal_le k f (u / 10) hlt
        rw [fixedDigits, ← hrec]
        simp only [decimal, h10, if_false, List.length_append, List.length_singleton]
        have : k + 1 + 1 - ((decimal f (u / 10)).length + 1) =
            k + 1 - (decimal f (u / 10)).length := by omega
        rw [this, List.append_assoc]

theorem appendInt_nat (b : List Char) (u k : Nat) (h : u < 10 ^ (k + 1)) :
    appendInt b (u : Int) (k + 1) = b ++ fixedDigits (k + 1) u := by
  have hneg : ¬ ((u : Int) < 0) := by omega
  simp only [appendInt, hneg, if_false, Int.natAbs_ofNat, List.append_assoc]
  rw [pad_decimal k (u + 1) u h (by omega)]

theorem appendInt_year (b : List Char) (y : Int) (h0 : 0 ≤ y) (h1 : y ≤ 9999) :
    appendInt b y 4 = b ++ fixedDigits 4 y.toNat := by
  obtain ⟨u, rfl⟩ := Int.eq_ofNat_of_zero_le h0
  have hu : u < 10 ^ (3 + 1) := by norm_num; omega
  simpa using appendInt_nat b u 3 hu

theorem appendNano_millis (b : List Char) (ns : Nat) (h : ns < 1000000000) :
    appendNano b ns 3 = b ++ ['.'] ++ fixedDigits 3 (ns / 1000000) := by
  unfold appendNano
  have h9 := appendInt_nat [] ns 8 (by norm_num; omega)
  rw [h9]
  simp [fixedDigits, Nat.div_div_eq_div_mul]

/-- The custom layout prints the spec's timestamp for years 0 to 9999. -/
theorem Format_layoutCustom (t : Time) (h0 : 0 ≤ t.year) (h1 : t.year ≤ 9999) :
    t.Format layoutCustom = specTimestamp t := by
  obtain ⟨⟨_, hmo⟩, ⟨_, hd⟩, hh, hmi, hs, hn⟩ := t.inRange
  simp only [Time.Format, layoutCustom, List.foldl, appendChunk, specTimestamp]
  rw [appendInt_year _ _ h0 h1, appendInt_nat _ t.month 1 (by norm_num; omega),
    appendInt_nat _ t.day 1 (by norm_num; omega), appendInt_nat _ t.hour 1 (by norm_num; omega),
    appendInt_nat _ t.minute 1 (by norm_num; omega),
    appendInt_nat _ t.second 1 (by norm_num; omega), appendNano_millis _ _ hn]
  simp

theorem length_specTimestamp (t : Time) : (specTimestamp t).length = 23 := by
  simp [specTimestamp, String.length, length_fixedDigits]

/-- The date layout prints the spec's date for years 0 to 9999. -/
theorem Format_layoutDate (t : Time) (h0 : 0 ≤ t.year) (h1 : t.year ≤ 9999) :
    t.Format layoutDate = specDate t := by
  obtain ⟨⟨_, hmo⟩, ⟨_, hd⟩, _, _, _, _⟩ := t.inRange
  simp only [Time.Format, layoutDate, List.foldl, appendChunk, specDate]
  rw [appendInt_year _ _ h0 h1, appendInt_nat _ t.month 1 (by norm_num; omega),
    appendInt_nat _ t.day 1 (by norm_num; omega)]
  simp

theorem length_specDate (t : Time) : (specDate t).length = 10 := by
  simp [specDate, String.length, length_fixedDigits]

/-- C10, as the code has it: for every time `t`, `customTimeEncoder` appends
exactly one string, the time formatted with the layout
`2006-01-02 15:04:05.000`; when the year is in 0..9999 that string is the time
as `YYYY-MM-DD HH:MM:SS.mmm`, every component zero-padded to its fixed width
with three millisecond digits, 23 characters long. -/
theorem customTimeEncoder_appends_timestamp (t : Time) (enc : PrimitiveArrayEncoder) :
    customTimeEncoder t enc = enc ++ [.string (t.Format layoutCustom)] ∧
    (0 ≤ t.year ∧ t.year ≤ 9999 →
      t.Format layoutCustom = specTimestamp t ∧ (t.Format layoutCustom).length = 23) := by
  refine ⟨rfl, fun h => ⟨Format_layoutCustom t h.1 h.2, ?_⟩⟩
  rw [Format_layoutCustom t h.1 h.2, length_specTimestamp]

/-- C10, witness: the example time, 2024-03-01 12:00:00 UTC. -/
theorem customTimeEncoder_appends_timestamp_witness :
    (0 ≤ exampleTime.year ∧ exampleTime.year ≤ 9999) ∧
    customTimeEncoder exampleTime [] = [.string (exampleTime.Format layoutCustom)] ∧
    exampleTime.Format layoutCustom = specTimestamp exampleTime ∧
    specTimestamp exampleTime = "2024-03-01 12:00:00.000" ∧
    (exampleTime.Format layoutCustom).length = 23 :=
  ⟨by decide, (customTimeEncoder_appends_timestamp exampleTime []).1,
    ((customTimeEncoder_appends_timestamp exampleTime []).2 (by decide)).1, by decide,
    ((customTimeEncoder_appends_timestamp exampleTime []).2 (by decide)).2⟩

/-- C10, counterexample: for the first instant of the year 10000 the appended
string has 24 characters, the year taking five. -/
theorem customTimeEncoder_year10000 :
    customTimeEncoder year10000 [] = [.string "10000-01-01 00:00:00.000"] ∧
    ("10000-01-01 00:00:00.000").length = 24 ∧
    ¬ (year10000.Format layoutCustom).length = 23 := by
  refine ⟨?_, by decide, by decide⟩
  have h : year10000.Format layoutCustom = "10000-01-01 00:00:00.000" := by decide
  simp [customTimeEncoder, h]

/-! ## Encoders of the console and of the files -/

theorem appendInt_append (b : List Char) (x : Int) (width : Nat) :
    appendInt b x width = b ++ appendInt [] x width := by
  unfold appendInt
  split <;> simp

theorem appendChunk_append (t : Time) (b : List Char) (c : Chunk) :
    appendChunk t b c = b ++ appendChunk t [] c := by
  cases c with
  | stdISO8601TZ =>
    simp only [appendChunk]
    split
    · simp
    · by_cases hz : t.offset.tdiv 60 < 0
      · simp only [hz, if_true]
        rw [appendInt_append (appendInt _ _ _), appendInt_append (b ++ _),
          appendInt_append (appendInt ([] ++ _) _ _), appendInt_append ([] ++ _)]
        simp
      · simp only [hz, if_false]
        rw [appendInt_append (appendInt _ _ _), appendInt_append (b ++ _),
          appendInt_append (appendInt ([] ++ _) _ _), appendInt_append ([] ++ _)]
        simp
  | _ => simp [appendChunk, appendInt_append b, appendNano]

theorem foldl_appendChunk (t : Time) (layout : List Chunk) (b : List Char) :
    layout.foldl (appendChunk t) b = b ++ layout.foldl (appendChunk t) [] := by
  induction layout using List.reverseRecOn with
  | nil => simp
  | append_singleton l c ih =>
    rw [List.foldl_append, List.foldl_append]
    simp only [List.foldl]
    rw [appendChunk_append, ih, appendChunk_append t (List.foldl _ _ _)]
    simp

/-- The custom layout and the ISO 8601 layout never print the same text: after
the date one has a blank and the other a `T`. -/
theorem Format_layoutCustom_ne_layoutISO8601 (t : Time) :
    t.Format layoutCustom ≠ t.Format layoutISO8601 := by
  have hc : layoutCustom = layoutDate ++ (.lit " " :: layoutCustom.drop 6) := rfl
  have hi : layoutISO8601 = layoutDate ++ (.lit "T" :: layoutISO8601.drop 6) := rfl
  intro h
  have h := congrArg String.data h
  simp only [Time.Format] at h
  rw [hc, hi, List.foldl_append, List.foldl_append, List.foldl_cons, List.foldl_cons,
    foldl_appendChunk t _ (appendChunk _ _ _), foldl_appendChunk t _ (appendChunk _ _ (.lit "T")),
    appendChunk_append, appendChunk_append t _ (.lit "T")] at h
  simp only [List.append_assoc, List.append_cancel_left_eq] at h
  simp [appendChunk] at h

/-- C9, as the code has it: the console and both file sinks use zap's console
(non-JSON) encoder with the capital level encoder, the default line ending and
the tab separator, but not the same configuration.  The console has the keys
level / timestamp / caller / message and `customTimeEncoder`; the files have
`zap.NewDevelopmentEncoderConfig()`, with the keys L / T / C / M and the
ISO 8601 time encoder.  So the level is rendered the same way in both and the
timestamp never is. -/
theorem console_and_file_encoders (conf : Config) (w : World) :
    (Initialize conf w).encoder? console = some (NewConsoleEncoder consoleEncoderConfig) ∧
    (Initialize conf w).encoder? infoFile =
      some (NewConsoleEncoder NewDevelopmentEncoderConfig) ∧
    (Initialize conf w).encoder? errorFile =
      some (NewConsoleEncoder NewDevelopmentEncoderConfig) ∧
    (NewConsoleEncoder consoleEncoderConfig).encoding = .console ∧
    (NewConsoleEncoder NewDevelopmentEncoderConfig).encoding = .console ∧
    ((NewConsoleEncoder consoleEncoderConfig).cfg.LevelKey = "level" ∧
      (NewConsoleEncoder consoleEncoderConfig).cfg.TimeKey = "timestamp" ∧
      (NewConsoleEncoder consoleEncoderConfig).cfg.CallerKey = "caller" ∧
      (NewConsoleEncoder consoleEncoderConfig).cfg.MessageKey = "message") ∧
    ((NewConsoleEncoder NewDevelopmentEncoderConfig).cfg.LevelKey = "L" ∧
      (NewConsoleEncoder NewDevelopmentEncoderConfig).cfg.TimeKey = "T" ∧
      (NewConsoleEncoder NewDevelopmentEncoderConfig).cfg.CallerKey = "C" ∧
      (NewConsoleEncoder NewDevelopmentEncoderConfig).cfg.MessageKey = "M") ∧
    (NewConsoleEncoder consoleEncoderConfig).cfg.LineEnding =
      (NewConsoleEncoder NewDevelopmentEncoderConfig).cfg.LineEnding ∧
    (NewConsoleEncoder consoleEncoderConfig).cfg.ConsoleSeparator =
      (NewConsoleEncoder NewDevelopmentEncoderConfig).cfg.ConsoleSeparator ∧
    ((NewConsoleEncoder consoleEncoderConfig).cfg.LineEnding = "\n" ∧
      (NewConsoleEncoder consoleEncoderConfig).cfg.ConsoleSeparator = "\t") ∧
    (∀ L : Level,
      (NewConsoleEncoder consoleEncoderConfig).encodeLevel L = [.string L.CapitalString] ∧
      (NewConsoleEncoder NewDevelopmentEncoderConfig).encodeLevel L =
        [.string L.CapitalString]) ∧
    (∀ t : Time,
      (NewConsoleEncoder consoleEncoderConfig).encodeTime t =
        [.string (t.Format layoutCustom)] ∧
      (NewConsoleEncoder NewDevelopmentEncoderConfig).encodeTime t =
        [.string (t.Format layoutISO8601)] ∧
      (NewConsoleEncoder consoleEncoderConfig).encodeTime t ≠
        (NewConsoleEncoder NewDevelopmentEncoderConfig).encodeTime t) := by
  refine ⟨rfl, rfl, rfl, rfl, rfl, ⟨rfl, rfl, rfl, rfl⟩, ⟨rfl, rfl, rfl, rfl⟩, rfl, rfl,
    ⟨rfl, rfl⟩, fun L => ⟨rfl, rfl⟩, fun t => ?_⟩
  have hc : (NewConsoleEncoder consoleEncoderConfig).encodeTime t =
      [.string (t.Format layoutCustom)] := rfl
  have hf : (NewConsoleEncoder NewDevelopmentEncoderConfig).encodeTime t =
      [.string (t.Format layoutISO8601)] := rfl
  refine ⟨hc, hf, ?_⟩
  rw [hc, hf]
  intro h
  simp only [List.cons.injEq, Primitive.string.injEq, and_true] at h
  exact Format_layoutCustom_ne_layoutISO8601 t h

/-- C9, counterexample: after `Initialize` the console encoder and the info
file encoder have different configurations, and for the time 2024-03-01
12:00:00 UTC the console prints `2024-03-01 12:00:00.000` where the file
prints `2024-03-01T12:00:00.000Z`. -/
theorem console_file_encoders_differ :
    ∃ ec ef : Encoder,
      (Initialize exampleConfig exampleWorld).encoder? console = some ec ∧
      (Initialize exampleConfig exampleWorld).encoder? infoFile = some ef ∧
      ec.cfg ≠ ef.cfg ∧
      ec.encodeTime exampleTime = [.string "2024-03-01 12:00:00.000"] ∧
      ef.encodeTime exampleTime = [.string "2024-03-01T12:00:00.000Z"] ∧
      ec.encodeTime exampleTime ≠ ef.encodeTime exampleTime := by
  have hc : exampleTime.Format layoutCustom = "2024-03-01 12:00:00.000" := by decide
  have hf : exampleTime.Format layoutISO8601 = "2024-03-01T12:00:00.000Z" := by decide
  have h1 : (NewConsoleEncoder consoleEncoderConfig).encodeTime exampleTime =
      [.string "2024-03-01 12:00:00.000"] := by
    rw [← hc]; rfl
  have h2 : (NewConsoleEncoder NewDevelopmentEncoderConfig).encodeTime exampleTime =
      [.string "2024-03-01T12:00:00.000Z"] := by
    rw [← hf]; rfl
  refine ⟨NewConsoleEncoder consoleEncoderConfig, NewConsoleEncoder NewDevelopmentEncoderConfig,
    rfl, rfl, by decide, h1, h2, ?_⟩
  rw [h1, h2]
  simp

/-! ## Fuel -/

/-- The digit loop of `appendInt` never runs out of fuel: any fuel above the
number gives the same digits. -/
theorem decimal_fuel (f1 : Nat) : ∀ (f2 u : Nat), u < f1 → u < f2 →
    decimal f1 u = decimal f2 u := by
  induction f1 with
  | zero => intro f2 u h; omega
  | succ f1 ih =>
    intro f2 u h1 h2
    cases f2 with
    | zero => omega
    | succ f2 =>
      by_cases h10 : u < 10
      · simp [decimal, h10]
      · simp only [decimal, h10, if_false]
        rw [ih f2 (u / 10) (by omega) (by omega)]

theorem length_dropWhile_le (p : Char → Bool) (l : List Char) :
    (l.dropWhile p).length ≤ l.length := by
  induction l with
  | nil => simp
  | cons a l ih =>
    rw [List.dropWhile_cons]
    split
    · simp only [List.length_cons]; omega
    · exact Nat.le_refl _

/-- The loop of `Clean` never runs out of fuel: any fuel of at least the
number of unread bytes gives the same output. -/
theorem cleanLoop_fuel (rooted : Bool) (f1 : Nat) :
    ∀ (f2 : Nat) (rest out : List Char) (dotdot : Nat), rest.length ≤ f1 → rest.length ≤ f2 →
      cleanLoop rooted f1 rest out dotdot = cleanLoop rooted f2 rest out dotdot := by
  induction f1 with
  | zero =>
    intro f2 rest out dotdot h1 _
    have : rest = [] := List.length_eq_zero.mp (by omega)
    subst this
    cases f2 <;> simp [cleanLoop]
  | succ f1 ih =>
    intro f2 rest out dotdot h1 h2
    cases rest with
    | nil => cases f2 <;> simp [cleanLoop]
    | cons c rest1 =>
      cases f2 with
      | zero => simp at h2
      | succ f2 =>
        simp only [List.length_cons] at h1 h2
        have ht : rest1.tail.length ≤ f1 ∧ rest1.tail.length ≤ f2 := by
          have : rest1.tail.length ≤ rest1.length := by simp
          omega
        rw [cleanLoop, cleanLoop]
        by_cases hsep : isPathSeparator c = true
        · simp only [if_pos hsep]
          exact ih f2 rest1 out dotdot (by omega) (by omega)
        · by_cases hdot : c = '.' ∧ (rest1 = [] ∨ isPathSeparator (rest1.headD '/') = true)
          · simp only [if_neg hsep, if_pos hdot]
            exact ih f2 rest1 out dotdot (by omega) (by omega)
          · by_cases hdd : c = '.' ∧ rest1.head? = some '.' ∧
                (rest1.tail = [] ∨ isPathSeparator (rest1.tail.headD '/') = true)
            · simp only [if_neg hsep, if_neg hdot, if_pos hdd]
              by_cases hb : dotdot < out.length
              · simp only [if_pos hb]
                exact ih f2 _ _ _ ht.1 ht.2
              · simp only [if_neg hb]
                by_cases hr : (!rooted) = true
                · simp only [if_pos hr]
                  exact ih f2 _ _ _ ht.1 ht.2
                · simp only [if_neg hr]
                  exact ih f2 _ _ _ ht.1 ht.2
            · simp only [if_neg hsep, if_neg hdot, if_neg hdd]
              have hd : ((c :: rest1).dropWhile (fun x => !isPathSeparator x)).length ≤
                  rest1.length := by
                have hc : (!isPathSeparator c) = true := by simpa using hsep
                rw [List.dropWhile_cons, if_pos hc]
                exact length_dropWhile_le _ _
              exact ih f2 _ _ _ (by omega) (by omega)

/-! ## `Clean` on clean paths -/

theorem tailPath_head (ss : List (List Char)) :
    tailPath ss = [] ∨ ∃ T, tailPath ss = '/' :: T := by
  cases ss with
  | nil => exact Or.inl rfl
  | cons s ss => exact Or.inr ⟨_, rfl⟩

theorem tailPath_append (ss ts : List (List Char)) :
    tailPath (ss ++ ts) = tailPath ss ++ tailPath ts := by
  induction ss with
  | nil => rfl
  | cons s ss ih => simp [tailPath, ih]

theorem takeWhile_elem (s T : List Char) (hs : '/' ∉ s) (hT : T = [] ∨ ∃ U, T = '/' :: U) :
    (s ++ T).takeWhile (fun x => !isPathSeparator x) = s ∧
    (s ++ T).dropWhile (fun x => !isPathSeparator x) = T := by
  induction s with
  | nil =>
    rcases hT with rfl | ⟨U, rfl⟩
    · simp
    · simp [isPathSeparator]
  | cons c s ih =>
    have hc : c ≠ '/' := fun h => hs (by simp [h])
    have hs' : '/' ∉ s := fun h => hs (by simp [h])
    obtain ⟨h1, h2⟩ := ih hs'
    have hcs : (!isPathSeparator c) = true := by simp [isPathSeparator, hc]
    simp only [List.cons_append, List.takeWhile_cons, List.dropWhile_cons, hcs, if_true, h1, h2,
      and_self]

/-- One iteration of the loop of `Clean` on a plain element: the element is
copied, after a separator when the output already holds an element. -/
theorem cleanLoop_elem (rooted : Bool) (fuel : Nat) (s T out : List Char) (dotdot : Nat)
    (hs : PlainChars s) (hT : T = [] ∨ ∃ U, T = '/' :: U) :
    cleanLoop rooted (fuel + 1) (s ++ T) out dotdot =
      cleanLoop rooted fuel T
        ((if (rooted && out.length != 1) || (!rooted && out.length != 0)
          then out ++ ['/'] else out) ++ s) dotdot := by
  obtain ⟨hne, hsep, hdot, hdotdot⟩ := hs
  obtain ⟨h1, h2⟩ := takeWhile_elem s T hsep hT
  cases s with
  | nil => exact absurd rfl hne
  | cons c s1 =>
    have hc : c ≠ '/' := fun h => hsep (by simp [h])
    have hsepc : isPathSeparator c = false := by simp [isPathSeparator, hc]
    have hcase2 : ¬ (c = '.' ∧ (s1 ++ T = [] ∨ isPathSeparator ((s1 ++ T).headD '/') = true)) := by
      rintro ⟨rfl, h⟩
      cases s1 with
      | nil => exact hdot rfl
      | cons c2 s2 =>
        have hc2 : c2 ≠ '/' := fun h => hsep (by simp [h])
        simp [isPathSeparator, hc2] at h
    have hcase3 : ¬ (c = '.' ∧ (s1 ++ T).head? = some '.' ∧
        ((s1 ++ T).tail = [] ∨ isPathSeparator ((s1 ++ T).tail.headD '/') = true)) := by
      rintro ⟨rfl, hh, h⟩
      cases s1 with
      | nil => exact hdot rfl
      | cons c2 s2 =>
        cases s2 with
        | nil =>
          simp at hh
          subst hh
          exact hdotdot rfl
        | cons c3 s3 =>
          have hc3 : c3 ≠ '/' := fun h => hsep (by simp [h])
          simp [isPathSeparator, hc3] at h
    simp only [List.cons_append] at h1 h2 ⊢
    rw [cleanLoop]
    simp only [hsepc, hcase2, hcase3, if_false, h1, h2, Bool.false_eq_true]

/-- The loop of `Clean`, standing at a separator and followed only by plain
elements, copies them all. -/
theorem cleanLoop_tailPath (rooted : Bool) (ss : List (List Char)) :
    ∀ (fuel : Nat) (out : List Char) (dotdot : Nat), (∀ s ∈ ss, PlainChars s) →
      (tailPath ss).length ≤ fuel → 2 ≤ out.length ∨ (rooted = false ∧ 1 ≤ out.length) →
      cleanLoop rooted fuel (tailPath ss) out dotdot = out ++ tailPath ss := by
  induction ss with
  | nil =>
    intro fuel out dotdot _ _ _
    cases fuel <;> simp [cleanLoop, tailPath]
  | cons s ss ih =>
    intro fuel out dotdot hp hfuel hout
    have hps : PlainChars s := hp s (by simp)
    have hlen : 0 < s.length := List.length_pos.mpr hps.1
    simp only [tailPath, List.length_cons, List.length_append] at hfuel
    obtain ⟨f, rfl⟩ : ∃ f, fuel = f + 1 + 1 := ⟨fuel - 2, by omega⟩
    have hslash : ((rooted && out.length != 1) || (!rooted && out.length != 0)) = true := by
      rcases hout with h | ⟨rfl, h⟩
      · cases rooted
        · have : out.length ≠ 0 := by omega
          simp [this]
        · have : out.length ≠ 1 := by omega
          simp [this]
      · have : out.length ≠ 0 := by omega
        simp [this]
    have hstep : cleanLoop rooted (f + 1 + 1) (tailPath (s :: ss)) out dotdot =
        cleanLoop rooted (f + 1) (s ++ tailPath ss) out dotdot := by
      show cleanLoop rooted (f + 1 + 1) ('/' :: (s ++ tailPath ss)) out dotdot = _
      rw [cleanLoop]
      simp [isPathSeparator]
    rw [hstep, cleanLoop_elem rooted f s (tailPath ss) out dotdot hps (tailPath_head ss), hslash,
      if_pos rfl, ih f _ dotdot (fun x hx => hp x (by simp [hx])) (by omega)
        (Or.inl (by simp; omega))]
    simp [tailPath]

/-- The text of a clean path: an optional root, a first plain element and
further plain elements, each after one separator. -/
theorem Clean_plain (rooted : Bool) (s : List Char) (ss : List (List Char))
    (hs : PlainChars s) (hss : ∀ x ∈ ss, PlainChars x) :
    Clean (String.mk ((if rooted then ['/'] else []) ++ s ++ tailPath ss)) =
      String.mk ((if rooted then ['/'] else []) ++ s ++ tailPath ss) := by
  have hlen : 0 < s.length := List.length_pos.mpr hs.1
  obtain ⟨c, s1, rfl⟩ : ∃ c s1, s = c :: s1 := by
    cases s with
    | nil => exact absurd rfl hs.1
    | cons c s1 => exact ⟨c, s1, rfl⟩
  have hc : c ≠ '/' := fun h => hs.2.1 (by simp [h])
  cases rooted with
  | true =>
    have hne : (String.mk (['/'] ++ (c :: s1) ++ tailPath ss)) ≠ "" := by
      intro h
      have := congrArg String.data h
      simp at this
    simp only [Clean, if_true, hne, if_false]
    have hroot : isPathSeparator ((['/'] ++ (c :: s1) ++ tailPath ss).headD '.') = true := rfl
    simp only [hroot, if_true]
    have htail : (['/'] ++ (c :: s1) ++ tailPath ss).tail = (c :: s1) ++ tailPath ss := rfl
    have hl : (['/'] ++ (c :: s1) ++ tailPath ss).length =
        (s1.length + (tailPath ss).length + 1) + 1 := by
      simp
    rw [htail, hl, cleanLoop_elem true _ (c :: s1) (tailPath ss) ['/'] 1 hs (tailPath_head ss)]
    rw [cleanLoop_tailPath true ss _ _ _ hss (by omega) (Or.inl (by simp))]
    simp
  | false =>
    have hne : (String.mk ([] ++ (c :: s1) ++ tailPath ss)) ≠ "" := by
      intro h
      have := congrArg String.data h
      simp at this
    simp only [Clean, hne, if_false, Bool.false_eq_true]
    have hroot : isPathSeparator (([] ++ (c :: s1) ++ tailPath ss).headD '.') = false := by
      simp [isPathSeparator, hc]
    simp only [hroot, if_false, Bool.false_eq_true]
    have hl : ([] ++ (c :: s1) ++ tailPath ss).length =
        (s1.length + (tailPath ss).length) + 1 := by
      simp
    have hnil : ([] : List Char) ++ (c :: s1) ++ tailPath ss = (c :: s1) ++ tailPath ss := rfl
    rw [hl, hnil, cleanLoop_elem false _ (c :: s1) (tailPath ss) [] 0 hs (tailPath_head ss)]
    rw [cleanLoop_tailPath false ss _ _ _ hss (by omega) (Or.inr ⟨rfl, by simp⟩)]
    simp

/-! ## File names -/

theorem intercalate_go_data (l : List String) : ∀ acc : String,
    (String.intercalate.go acc "/" l).data = acc.data ++ tailPath (l.map String.data) := by
  induction l with
  | nil => intro acc; simp [String.intercalate.go, tailPath]
  | cons a l ih =>
    intro acc
    rw [String.intercalate.go, ih]
    simp [tailPath, String.data_append]

theorem pathOf_data (rooted : Bool) (e : String) (es : List String) :
    (pathOf rooted (e :: es)).data =
      (if rooted then ['/'] else []) ++ e.data ++ tailPath (es.map String.data) := by
  simp only [pathOf, String.data_append, String.intercalate, intercalate_go_data]
  cases rooted <;> simp

/-- Joining a clean directory path and a plain base name puts one separator
between them and changes nothing else. -/
theorem Join_plain (rooted : Bool) (elems : List String) (b : String) (hne : elems ≠ [])
    (hel : ∀ e ∈ elems, PlainElem e) (hb : PlainElem b) :
    Join [pathOf rooted elems, b] = pathOf rooted elems ++ "/" ++ b := by
  obtain ⟨e, es, rfl⟩ : ∃ e es, elems = e :: es := by
    cases elems with
    | nil => exact absurd rfl hne
    | cons e es => exact ⟨e, es, rfl⟩
  have he : PlainChars e.data := hel e (by simp)
  have hd : pathOf rooted (e :: es) ≠ "" := by
    intro h
    have h' : (if rooted then ['/'] else []) ++ e.data ++ tailPath (es.map String.data) = [] := by
      rw [← pathOf_data]
      exact congrArg String.data h
    exact he.1 (List.append_eq_nil.mp (List.append_eq_nil.mp h').1).2
  have hdata : (pathOf rooted (e :: es) ++ "/" ++ b).data =
      (if rooted then ['/'] else []) ++ e.data ++ tailPath ((es ++ [b]).map String.data) := by
    simp only [String.data_append, pathOf_data, List.map_append, tailPath_append]
    simp [tailPath]
  have hmk : pathOf rooted (e :: es) ++ "/" ++ b =
      String.mk ((if rooted then ['/'] else []) ++ e.data ++
        tailPath ((es ++ [b]).map String.data)) := by
    rw [← hdata]
  have hplain : ∀ x ∈ (es ++ [b]).map String.data, PlainChars x := by
    intro x hx
    simp only [List.mem_map, List.mem_append, List.mem_singleton] at hx
    obtain ⟨y, hy | hy, rfl⟩ := hx
    · exact hel y (by simp [hy])
    · subst hy; exact hb
  have hjoin : Join [pathOf rooted (e :: es), b] =
      Clean (pathOf rooted (e :: es) ++ "/" ++ b) := by
    simp only [Join, ne_eq, hd, not_false_eq_true, if_true]
    rfl
  rw [hjoin, hmk, Clean_plain rooted e.data _ he hplain]

theorem Format_layoutDate_congr (a b : Time) (h : a.sameDate b) :
    a.Format layoutDate = b.Format layoutDate := by
  obtain ⟨hy, hm, hd⟩ := h
  simp [Time.Format, layoutDate, appendChunk, hy, hm, hd]

theorem sprintfLogName_info (a b : String) :
    sprintfLogName a b "info" = a ++ "_" ++ b ++ "_info.log" := by
  apply String.ext
  simp [sprintfLogName, String.data_append]

theorem sprintfLogName_error (a b : String) :
    sprintfLogName a b "error" = a ++ "_" ++ b ++ "_error.log" := by
  apply String.ext
  simp [sprintfLogName, String.data_append]

/-- C1, as the code has it: when both clock readings of `Initialize` fall on
the date `D` and the year of `D` is in 0..9999, the info file sink gets the
name `<J>_<YYYY-MM-DD>_info.log` and the error file sink
`<J>_<YYYY-MM-DD>_error.log`, where `YYYY-MM-DD` is the year, month and day of
`D` zero-padded to four, two and two digits (ten characters) and `J` is
`filepath.Join(d, b)`, the cleaned join of the directory and the base name;
`J` is `<d>/<b>` whenever `d` is a clean path (plain elements joined by single
separators, rooted or not) and `b` a plain element. -/
theorem Initialize_file_names (conf : Config) (w : World) (D : Time)
    (h1 : (w.clock w.reads).sameDate D) (h2 : (w.clock (w.reads + 1)).sameDate D)
    (hy0 : 0 ≤ D.year) (hy1 : D.year ≤ 9999) :
    (Initialize conf w).rotation? infoFile = some (newLumberjackLogger
      (Join [conf.LogDirectory, conf.BaseLogName] ++ "_" ++ specDate D ++ "_info.log")) ∧
    (Initialize conf w).rotation? errorFile = some (newLumberjackLogger
      (Join [conf.LogDirectory, conf.BaseLogName] ++ "_" ++ specDate D ++ "_error.log")) ∧
    (specDate D).length = 10 ∧
    (∀ (rooted : Bool) (elems : List String), elems ≠ [] → (∀ e ∈ elems, PlainElem e) →
      PlainElem conf.BaseLogName → conf.LogDirectory = pathOf rooted elems →
      Join [conf.LogDirectory, conf.BaseLogName] =
        conf.LogDirectory ++ "/" ++ conf.BaseLogName) := by
  refine ⟨?_, ?_, length_specDate D, ?_⟩
  · rw [← Format_layoutDate D hy0 hy1, ← Format_layoutDate_congr _ _ h1, ← sprintfLogName_info]
    rfl
  · rw [← Format_layoutDate D hy0 hy1, ← Format_layoutDate_congr _ _ h2, ← sprintfLogName_error]
    rfl
  · intro rooted elems hne hel hb hd
    rw [hd]
    exact Join_plain rooted elems conf.BaseLogName hne hel hb

/-- C1, witness: for the directory `/tmp/logs`, the base name `app` and the
date 2024-03-01 the two names are exactly `/tmp/logs/app_2024-03-01_info.log`
and `/tmp/logs/app_2024-03-01_error.log`. -/
theorem Initialize_file_names_witness :
    ((exampleWorld.clock exampleWorld.reads).sameDate exampleTime ∧
      (exampleWorld.clock (exampleWorld.reads + 1)).sameDate exampleTime ∧
      0 ≤ exampleTime.year ∧ exampleTime.year ≤ 9999) ∧
    exampleConfig.LogDirectory = pathOf true ["tmp", "logs"] ∧
    Join [exampleConfig.LogDirectory, exampleConfig.BaseLogName] = "/tmp/logs/app" ∧
    specDate exampleTime = "2024-03-01" ∧
    (Initialize exampleConfig exampleWorld).rotation? infoFile =
      some (newLumberjackLogger "/tmp/logs/app_2024-03-01_info.log") ∧
    (Initialize exampleConfig exampleWorld).rotation? errorFile =
      some (newLumberjackLogger "/tmp/logs/app_2024-03-01_error.log") := by
  obtain ⟨hi, he, _, hj⟩ := Initialize_file_names exampleConfig exampleWorld exampleTime
    ⟨rfl, rfl, rfl⟩ ⟨rfl, rfl, rfl⟩ (by decide) (by decide)
  have hplain : ∀ e ∈ ["tmp", "logs"], PlainElem e := by
    intro e he
    simp only [List.mem_cons, List.mem_singleton, List.not_mem_nil, or_false] at he
    rcases he with rfl | rfl <;> (unfold PlainElem PlainChars; decide)
  have hJ := hj true ["tmp", "logs"] (by simp) hplain
    (by unfold PlainElem PlainChars; decide) (by decide)
  have hD : specDate exampleTime = "2024-03-01" := by decide
  refine ⟨⟨⟨rfl, rfl, rfl⟩, ⟨rfl, rfl, rfl⟩, by decide, by decide⟩, by decide, ?_, hD, ?_, ?_⟩
  · rw [hJ]; decide
  · rw [hi, hJ, hD]; decide
  · rw [he, hJ, hD]; decide

/-- C1, counterexample: with an empty `LogDirectory` and the base name `app`,
on 2024-03-01, the info file name is `app_2024-03-01_info.log`, which is not
`<d>/<b>_2024-03-01_info.log`, that is `/app_2024-03-01_info.log`; and with the
directory `/tmp/logs` on the first day of the year 10000 the info file name is
`/tmp/logs/app_10000-01-01_info.log`, whose date has eleven characters and is
not the four-digit-year `YYYY-MM-DD`. -/
theorem Initialize_empty_directory :
    (Initialize ⟨"", "app"⟩ exampleWorld).rotation? infoFile =
      some (newLumberjackLogger "app_2024-03-01_info.log") ∧
    "" ++ "/" ++ "app" ++ "_" ++ specDate exampleTime ++ "_info.log" =
      "/app_2024-03-01_info.log" ∧
    (Initialize ⟨"", "app"⟩ exampleWorld).rotation? infoFile ≠
      some (newLumberjackLogger
        ("" ++ "/" ++ "app" ++ "_" ++ specDate exampleTime ++ "_info.log")) ∧
    (Initialize exampleConfig year10000World).rotation? infoFile =
      some (newLumberjackLogger "/tmp/logs/app_10000-01-01_info.log") ∧
    (year10000.Format layoutDate).length = 11 ∧
    (Initialize exampleConfig year10000World).rotation? infoFile ≠
      some (newLumberjackLogger
        ("/tmp/logs" ++ "/" ++ "app" ++ "_" ++ specDate year10000 ++ "_info.log")) := by
  refine ⟨by decide, by decide, by decide, by decide, by decide, by decide⟩

/-- C4, the code at the failing input: when the clock passes midnight between
the two readings `Initialize` makes, the info file is named for 2024-03-01 and
the error file for 2024-03-02, so the two names differ in more than the
severity suffix. -/
theorem Initialize_across_midnight :
    (Initialize exampleConfig midnightWorld).rotation? infoFile =
      some (newLumberjackLogger "/tmp/logs/app_2024-03-01_info.log") ∧
    (Initialize exampleConfig midnightWorld).rotation? errorFile =
      some (newLumberjackLogger "/tmp/logs/app_2024-03-02_error.log") := by
  refine ⟨by decide, by decide⟩

end GitsLog
